import Mathlib

/-!
# concurrency-api: admission gate and metrics counters

A shallow embedding of `main.go`.  The handler `processHandler` is embedded as a
small-step transition function, one step per shared-state access of the Go
source, so that every interleaving of any number of handler goroutines is a
schedule of the transition system.  `metricsHandler` and the capacity
computation of `main` are embedded as pure functions.

Go `int` and `int64` values are integers with explicit two's-complement
wrapping (`wrapInt64`).  The channel `concurrencyLimiter` of type
`chan struct{}` carries no data, so it is embedded as its capacity and length.
-/

namespace ConcurrencyApi

/-! ## Machine integers -/

/-- Two's-complement wrap of an integer into the signed 64-bit range. -/
def wrapInt64 (x : Int) : Int := (x + 2 ^ 63) % 2 ^ 64 - 2 ^ 63

/-- The largest value of a Go `int64` (and of `int` on 64-bit targets). -/
def maxInt64 : Int := 2 ^ 63 - 1

/-- The smallest value of a Go `int64`. -/
def minInt64 : Int := -(2 ^ 63)

/-- Go's `atomic.AddInt64(&x, delta)`: the new value of `x`, wrapping. -/
def atomicAddInt64 (x delta : Int) : Int := wrapInt64 (x + delta)

/-- Go's `/` on `int64`: truncated quotient, `none` for the run-time panic on a
zero divisor; `minInt64 / -1` overflows back to `minInt64`. -/
def int64Div (a b : Int) : Option Int :=
  if b = 0 then none
  else if a = minInt64 ∧ b = -1 then some minInt64
  else some (Int.tdiv a b)

/-! ## Data model (`main.go` lines 17-32) -/

/-- The Go struct `Task`; `Duration` is a Go `int`. -/
structure Task where
  TaskID : String
  Duration : Int
  deriving DecidableEq, Repr

/-- The Go struct `Metrics`: three `int64` counters.  `AverageProcessingTime`
holds the cumulative processing time in milliseconds. -/
structure Metrics where
  TotalRequests : Int
  AverageProcessingTime : Int
  ActiveRequests : Int
  deriving DecidableEq, Repr

/-- A buffered `chan struct{}`: only its capacity and current length matter. -/
structure Chan where
  cap : Nat
  len : Nat
  deriving DecidableEq, Repr

/-- The Go expression `make(chan struct{}, n)`. -/
def Chan.make (n : Nat) : Chan := { cap := n, len := 0 }

/-- The Go statement `c <- struct{}{}`: `none` while the buffer is full (the sender
blocks). -/
def Chan.send (c : Chan) : Option Chan :=
  if c.len < c.cap then some { c with len := c.len + 1 } else none

/-- The Go statement `<-c`: `none` while the buffer is empty (the receiver blocks). -/
def Chan.recv (c : Chan) : Option Chan :=
  if 0 < c.len then some { c with len := c.len - 1 } else none

/-- What a handler hands to its `http.ResponseWriter`. -/
inductive Response where
  /-- The call `http.Error(w, msg, code)`. -/
  | error (msg : String) (code : Nat)
  /-- Header `Content-Type` set to `contentType`, then the string map encoded as
  a JSON object (fields in source order). -/
  | json (contentType : String) (fields : List (String × String))
  deriving DecidableEq, Repr

/-- The constant `http.StatusBadRequest`. -/
def StatusBadRequest : Nat := 400

/-! ## Time (`time` package) -/

/-- The constant `time.Millisecond`, in nanoseconds. -/
def Millisecond : Int := 1000000

/-- The argument of `time.Sleep` on line 46:
`time.Duration(task.Duration) * time.Millisecond`, an `int64` product. -/
def sleepArg (task : Task) : Int := wrapInt64 (task.Duration * Millisecond)

/-- The call `time.Since(start)` against the monotonic clock reading `now`: the
difference, saturated to the `int64` range of `time.Duration`. -/
def timeSince (start now : Int) : Int := max minInt64 (min maxInt64 (now - start))

/-- The method `Duration.Milliseconds`: `int64(d) / 1e6`. -/
def durationMilliseconds (d : Int) : Int := Int.tdiv d 1000000

/-! ## `processHandler` (lines 34-60) as a transition system -/

/-- The package-level variables of `main.go` (lines 28-32) together with the
monotonic clock, in nanoseconds. -/
structure Shared where
  concurrencyLimiter : Chan
  metrics : Metrics
  now : Int
  deriving DecidableEq, Repr

/-- Program points of `processHandler`; each names the source line about to run. -/
inductive PC where
  /-- Line 36: decode the body. -/
  | decode
  /-- Line 41: `concurrencyLimiter <- struct{}{}`. -/
  | acquire
  /-- Line 42: `atomic.AddInt64(&metrics.ActiveRequests, 1)`. -/
  | markActive
  /-- Line 44: `start := time.Now()`. -/
  | start
  /-- Line 46: the call of `time.Sleep`. -/
  | sleep
  /-- Line 46: asleep, waiting for the deadline. -/
  | wake
  /-- Line 48: `elapsed := time.Since(start).Milliseconds()`. -/
  | measure
  /-- Line 49: `atomic.AddInt64(&metrics.TotalRequests, 1)`. -/
  | addTotal
  /-- Line 50: `atomic.AddInt64(&metrics.AverageProcessingTime, elapsed)`. -/
  | addTime
  /-- Line 51: `atomic.AddInt64(&metrics.ActiveRequests, -1)`. -/
  | unmarkActive
  /-- Line 53: `<-concurrencyLimiter`. -/
  | release
  /-- Lines 55-59: build and write the response. -/
  | respond
  /-- The handler has returned from line 38, after `http.Error`. -/
  | rejected
  /-- The handler has returned from line 60, after writing its response. -/
  | done
  deriving DecidableEq, Repr

/-- One run of `processHandler`: the outcome of decoding its body (`none` when
`Decode` returns an error), its program point and local variables, the response
written so far, and two history counters of the channel operations it has
performed. -/
structure Req where
  body : Option Task
  pc : PC
  task : Task
  start : Int
  wakeAt : Int
  elapsed : Int
  response : Option Response
  acquires : Nat
  releases : Nat
  deriving DecidableEq, Repr

/-- A handler goroutine that has just been started on a request. -/
def newReq (body : Option Task) : Req :=
  { body := body, pc := PC.decode, task := { TaskID := "", Duration := 0 },
    start := 0, wakeAt := 0, elapsed := 0, response := none,
    acquires := 0, releases := 0 }

/-- The response of lines 55-59 for a task. -/
def successResponse (task : Task) : Response :=
  Response.json "application/json"
    [("message", "Task " ++ task.TaskID ++ " is being processed.")]

/-- The response of line 37. -/
def invalidJSON : Response := Response.error "Invalid JSON" StatusBadRequest

/-- One step of `processHandler` (lines 34-60) for the goroutine `r` against the
shared state `g`.  `none` means the goroutine cannot move: it is blocked on the
channel, still asleep, or has returned. -/
def stepReq (g : Shared) (r : Req) : Option (Shared × Req) :=
  match r.pc with
  | PC.decode =>
    match r.body with
    | none => some (g, { r with pc := PC.rejected, response := some invalidJSON })
    | some t => some (g, { r with pc := PC.acquire, task := t })
  | PC.acquire =>
    match g.concurrencyLimiter.send with
    | none => none
    | some c =>
      some ({ g with concurrencyLimiter := c },
            { r with pc := PC.markActive, acquires := r.acquires + 1 })
  | PC.markActive =>
    some ({ g with metrics :=
              { g.metrics with
                ActiveRequests := atomicAddInt64 g.metrics.ActiveRequests 1 } },
          { r with pc := PC.start })
  | PC.start => some (g, { r with pc := PC.sleep, start := g.now })
  | PC.sleep =>
    some (g, { r with pc := PC.wake, wakeAt := g.now + max 0 (sleepArg r.task) })
  | PC.wake => if r.wakeAt ≤ g.now then some (g, { r with pc := PC.measure }) else none
  | PC.measure =>
    some (g, { r with pc := PC.addTotal,
                      elapsed := durationMilliseconds (timeSince r.start g.now) })
  | PC.addTotal =>
    some ({ g with metrics :=
              { g.metrics with
                TotalRequests := atomicAddInt64 g.metrics.TotalRequests 1 } },
          { r with pc := PC.addTime })
  | PC.addTime =>
    some ({ g with metrics :=
              { g.metrics with
                AverageProcessingTime :=
                  atomicAddInt64 g.metrics.AverageProcessingTime r.elapsed } },
          { r with pc := PC.unmarkActive })
  | PC.unmarkActive =>
    some ({ g with metrics :=
              { g.metrics with
                ActiveRequests := atomicAddInt64 g.metrics.ActiveRequests (-1) } },
          { r with pc := PC.release })
  | PC.release =>
    match g.concurrencyLimiter.recv with
    | none => none
    | some c =>
      some ({ g with concurrencyLimiter := c },
            { r with pc := PC.respond, releases := r.releases + 1 })
  | PC.respond =>
    some (g, { r with pc := PC.done, response := some (successResponse r.task) })
  | PC.rejected => none
  | PC.done => none

/-- The whole system: shared state and the handler goroutines started so far. -/
structure State where
  g : Shared
  reqs : List Req
  deriving DecidableEq, Repr

/-- What can happen next: a request arrives (the server starts a handler on it),
the clock advances, or goroutine `i` takes its next step. -/
inductive Action where
  | arrive (body : Option Task)
  | tick (dt : Nat)
  | run (i : Nat)
  deriving DecidableEq, Repr

/-- One transition of the system; `none` when goroutine `i` does not exist or
cannot move. -/
def step (s : State) : Action → Option State
  | Action.arrive body => some { s with reqs := s.reqs ++ [newReq body] }
  | Action.tick dt => some { s with g := { s.g with now := s.g.now + dt } }
  | Action.run i =>
    match s.reqs[i]? with
    | none => none
    | some r =>
      match stepReq s.g r with
      | none => none
      | some (g', r') => some { g := g', reqs := s.reqs.set i r' }

/-- Run a schedule from a state. -/
def exec (s : State) : List Action → Option State
  | [] => some s
  | a :: as =>
    match step s a with
    | none => none
    | some s' => exec s' as

/-- The state `main` sets up (lines 93-94) for capacity `C`: an empty gate and
zeroed counters. -/
def init (C : Nat) : State :=
  { g := { concurrencyLimiter := Chan.make C,
           metrics := { TotalRequests := 0, AverageProcessingTime := 0,
                        ActiveRequests := 0 },
           now := 0 },
    reqs := [] }

/-- Goroutine `i` takes `n` steps in a row. -/
def runs (i n : Nat) : List Action := List.replicate n (Action.run i)

/-! ## Observations on handler goroutines -/

/-- Between the acquire of line 41 and the release of line 53: holding a slot. -/
def PC.holding : PC → Bool
  | PC.markActive | PC.start | PC.sleep | PC.wake | PC.measure
  | PC.addTotal | PC.addTime | PC.unmarkActive | PC.release => true
  | _ => false

/-- Inside the simulated-work section, lines 44-48. -/
def PC.working : PC → Bool
  | PC.start | PC.sleep | PC.wake | PC.measure => true
  | _ => false

/-- Between the increment of line 42 and the decrement of line 51. -/
def PC.active : PC → Bool
  | PC.start | PC.sleep | PC.wake | PC.measure
  | PC.addTotal | PC.addTime | PC.unmarkActive => true
  | _ => false

/-- Line 49 has been executed. -/
def PC.counted : PC → Bool
  | PC.addTime | PC.unmarkActive | PC.release | PC.respond | PC.done => true
  | _ => false

/-- Line 50 has been executed. -/
def PC.timed : PC → Bool
  | PC.unmarkActive | PC.release | PC.respond | PC.done => true
  | _ => false

/-- The handler has returned, from either return point. -/
def PC.finished : PC → Bool
  | PC.rejected | PC.done => true
  | _ => false

/-- Line 48 has been executed: `elapsed` holds the measured time. -/
def PC.measured : PC → Bool
  | PC.addTotal | PC.addTime | PC.unmarkActive | PC.release | PC.respond
  | PC.done => true
  | _ => false

/-- Number of goroutines holding a gate slot. -/
def holders (s : State) : Nat := s.reqs.countP (fun r => r.pc.holding)

/-- Number of goroutines inside the simulated-work section. -/
def workers (s : State) : Nat := s.reqs.countP (fun r => r.pc.working)

/-- Number of goroutines between their increment and their decrement of
`ActiveRequests`. -/
def actives (s : State) : Nat := s.reqs.countP (fun r => r.pc.active)

/-- Number of goroutines stopped between acquire and increment (line 42 pending)
or between decrement and release (line 53 pending). -/
def inTransit (s : State) : Nat :=
  s.reqs.countP (fun r => r.pc = PC.markActive ∨ r.pc = PC.release)

/-- Number of requests whose body decoded to a task. -/
def wellFormed (s : State) : Nat := s.reqs.countP (fun r => r.body.isSome)

/-- Sum of the elapsed times measured by the handlers of well-formed requests. -/
def elapsedTotal (s : State) : Int :=
  ((s.reqs.filter (fun r => r.body.isSome)).map (fun r => r.elapsed)).sum

/-- Every goroutine started so far has returned. -/
def quiescent (s : State) : Prop := ∀ r ∈ s.reqs, r.pc.finished = true

instance (s : State) : Decidable (quiescent s) := by
  unfold quiescent; infer_instance

/-! ## `metricsHandler` (lines 62-79) -/

/-- The map written by `metricsHandler`, one field per key. -/
structure MetricsReport where
  total_requests : Int
  average_processing_ms : Int
  current_active_requests : Int
  deriving DecidableEq, Repr

/-- Lines 67-78 of `metricsHandler`, from the three loaded values; `none` would
be a division panic. -/
def metricsReport (total totalTime active : Int) : Option MetricsReport :=
  let average : Option Int := if total > 0 then int64Div totalTime total else some 0
  match average with
  | none => none
  | some a =>
    some { total_requests := total, average_processing_ms := a,
           current_active_requests := active }

/-- The handler `metricsHandler` reading one metrics state (lines 63-65 load the
three counters). -/
def metricsHandler (m : Metrics) : Option MetricsReport :=
  metricsReport m.TotalRequests m.AverageProcessingTime m.ActiveRequests

/-! ## Capacity computation of `main` (lines 86-94) -/

/-- The two errors of `strconv.Atoi`. -/
inductive AtoiError where
  | ErrSyntax
  | ErrRange
  deriving DecidableEq, Repr

/-- Value of a non-empty string of ASCII decimal digits, `none` otherwise. -/
def digitsValue (cs : List Char) : Option Nat :=
  if cs = [] then none
  else cs.foldl
    (fun acc c =>
      match acc with
      | none => none
      | some n => if c.isDigit then some (n * 10 + (c.toNat - 48)) else none)
    (some 0)

/-- The range check of `strconv.ParseInt` for bit size 64. -/
def checkRange (n : Int) : Except AtoiError Int :=
  if n < minInt64 ∨ maxInt64 < n then Except.error AtoiError.ErrRange
  else Except.ok n

/-- Go's `strconv.Atoi` on a 64-bit target: an optional sign, then decimal digits
only; values outside the `int` range are range errors. -/
def Atoi (s : String) : Except AtoiError Int :=
  let cs := s.toList
  let signed : Bool × List Char :=
    match cs with
    | '-' :: rest => (true, rest)
    | '+' :: rest => (false, rest)
    | _ => (false, cs)
  match digitsValue signed.2 with
  | none => Except.error AtoiError.ErrSyntax
  | some v => checkRange (if signed.1 then -(v : Int) else (v : Int))

/-- Go's `os.Getenv`: the value of the variable, the empty string when unset. -/
def Getenv (setting : Option String) : String := setting.getD ""

/-- Lines 86-93 of `main`: the value stored in `maxConcurrency`, given the
`MAX_CONCURRENT_REQUESTS` setting of the environment (`none` when unset). -/
def mainCapacity (setting : Option String) : Int :=
  match Atoi (Getenv setting) with
  | Except.error _ => 10
  | Except.ok n => if n ≤ 0 then 10 else n

/-- Lines 93-94 of `main`: the state the server starts in, the channel made with
the capacity computed from the setting. -/
def mainState (setting : Option String) : State := init (mainCapacity setting).toNat

/-! ## Invariants -/

/-- Sum of an integer observation over a list of goroutines. -/
def total (f : Req → Int) (l : List Req) : Int := (l.map f).sum

/-- A flag as an integer. -/
def ind (b : Bool) : Int := if b then 1 else 0

/-- Channel sends a goroutine has performed when it stands at a program point. -/
def acquiresAt : PC → Nat
  | PC.decode | PC.acquire | PC.rejected => 0
  | _ => 1

/-- Channel receives a goroutine has performed when it stands at a program point. -/
def releasesAt : PC → Nat
  | PC.respond | PC.done => 1
  | _ => 0

/-- The response a goroutine has written when it stands at its program point. -/
def responseAt (r : Req) : Option Response :=
  match r.pc with
  | PC.done => some (successResponse r.task)
  | PC.rejected => some invalidJSON
  | _ => none

/-- The elapsed time a goroutine adds on line 50, once it has done so. -/
def timeShare (r : Req) : Int := if r.pc.timed then r.elapsed else 0

/-- What holds of every goroutine in every reachable state, at clock reading
`now`. -/
structure Local (now : Int) (r : Req) : Prop where
  acq : r.acquires = acquiresAt r.pc
  rel : r.releases = releasesAt r.pc
  resp : r.response = responseAt r
  decoded : r.pc ≠ PC.decode → r.pc ≠ PC.rejected → r.body = some r.task
  failed : r.pc = PC.rejected → r.body = none
  started : r.pc = PC.sleep → r.start ≤ now
  asleep : r.pc = PC.wake → r.start + max 0 (sleepArg r.task) ≤ r.wakeAt
  slept : r.pc = PC.measure → r.start + max 0 (sleepArg r.task) ≤ now
  waited : r.pc.measured = true →
    durationMilliseconds (max 0 (sleepArg r.task)) ≤ r.elapsed

/-- What one step of a goroutine does to the shared state, relative to the
change of its own observations. -/
structure Effect (g : Shared) (r : Req) (g' : Shared) (r' : Req) : Prop where
  now : g'.now = g.now
  cap : g'.concurrencyLimiter.cap = g.concurrencyLimiter.cap
  len : (g'.concurrencyLimiter.len : Int) - ind r'.pc.holding =
    (g.concurrencyLimiter.len : Int) - ind r.pc.holding
  bound : g.concurrencyLimiter.len ≤ g.concurrencyLimiter.cap →
    g'.concurrencyLimiter.len ≤ g'.concurrencyLimiter.cap
  active : ∀ n : Int, g.metrics.ActiveRequests = wrapInt64 (n + ind r.pc.active) →
    g'.metrics.ActiveRequests = wrapInt64 (n + ind r'.pc.active)
  count : ∀ n : Int, g.metrics.TotalRequests = wrapInt64 (n + ind r.pc.counted) →
    g'.metrics.TotalRequests = wrapInt64 (n + ind r'.pc.counted)
  time : ∀ n : Int, g.metrics.AverageProcessingTime = wrapInt64 (n + timeShare r) →
    g'.metrics.AverageProcessingTime = wrapInt64 (n + timeShare r')

/-- The invariant of the system started with capacity `C`: the gate length and
the three counters are the sums of the goroutines' observations. -/
structure Inv (C : Nat) (s : State) : Prop where
  cap : s.g.concurrencyLimiter.cap = C
  len : (s.g.concurrencyLimiter.len : Int) = total (fun r => ind r.pc.holding) s.reqs
  bound : s.g.concurrencyLimiter.len ≤ s.g.concurrencyLimiter.cap
  active : s.g.metrics.ActiveRequests =
    wrapInt64 (total (fun r => ind r.pc.active) s.reqs)
  count : s.g.metrics.TotalRequests =
    wrapInt64 (total (fun r => ind r.pc.counted) s.reqs)
  time : s.g.metrics.AverageProcessingTime = wrapInt64 (total timeShare s.reqs)
  loc : ∀ r ∈ s.reqs, Local s.g.now r

/-! ## Concrete schedules -/

/-- The task of the specification's single-request scenario. -/
def demoTask : Task := { TaskID := "t1", Duration := 50 }

/-- Capacity 2, three requests: the first two acquire a slot and go to sleep, the
third has decoded its body and stands before the gate. -/
def gateSchedule : List Action :=
  [Action.arrive (some demoTask), Action.arrive (some demoTask),
   Action.arrive (some demoTask)] ++ runs 0 5 ++ runs 1 5 ++ runs 2 1

/-- The state `gateSchedule` leads to from `init 2`. -/
def gateState : State := (exec (init 2) gateSchedule).getD (init 2)

/-- Capacity 1, one request stopped right after its acquire (line 41 done, line 42
pending). -/
def transitSchedule : List Action := [Action.arrive (some demoTask)] ++ runs 0 2

/-- The state `transitSchedule` leads to from `init 1`. -/
def transitState : State := (exec (init 1) transitSchedule).getD (init 1)

/-- One request handled from arrival to return, the clock advancing by `dt`
nanoseconds while it sleeps. -/
def soloSchedule (i : Nat) (body : Option Task) (dt : Nat) : List Action :=
  [Action.arrive body] ++ runs i 5 ++ [Action.tick dt] ++ runs i 7

/-- The state after the single-request scenario of the specification, with an
empty gate of capacity 10. -/
def soloState : State :=
  (exec (init 10) (soloSchedule 0 (some demoTask) 50000000)).getD (init 10)

/-- The handler of the single-request scenario after it has returned. -/
def soloReq : Req := soloState.reqs.getD 0 (newReq none)

/-- A task whose duration in milliseconds is a valid non-negative Go `int` but
whose nanosecond count does not fit in 64 bits. -/
def hugeTask : Task := { TaskID := "t1", Duration := 9223372036855 }

/-- A state with one request whose body does not decode, not yet handled, while
another handler holds the only slot. -/
def malformedState : State :=
  (exec (init 1) ([Action.arrive (some demoTask)] ++ runs 0 3 ++
    [Action.arrive none])).getD (init 1)

/-- A task that asks for no sleep at all. -/
def idleTask : Task := { TaskID := "t0", Duration := 0 }

/-- The longest time a `time.Duration` can hold, 2^63 - 1 ns (about 292 years). -/
def longTick : Nat := 9223372036854775807

/-- The schedule in which `k` requests are handled one after the other, each from
arrival to return with the clock advancing by `dt` nanoseconds during its sleep;
`n` is the number of requests that have arrived before. -/
def soloRuns (body : Option Task) (dt : Nat) : Nat → Nat → List Action
  | _, 0 => []
  | n, k + 1 => soloSchedule n body dt ++ soloRuns body dt (n + 1) k

/-! ## Sequential runs and the run without one request -/

/-- A handler taking `n` steps in a row with no other goroutine in between. -/
def runReq : Nat → Shared → Req → Option (Shared × Req)
  | 0, g, r => some (g, r)
  | n + 1, g, r =>
    match stepReq g r with
    | none => none
    | some (g', r') => runReq n g' r'

/-- The handler of a task right after its call of `time.Sleep`, having read the
clock at `now`. -/
def sleeper (task : Task) (now : Int) : Req :=
  { newReq (some task) with
    pc := PC.wake, task := task, start := now,
    wakeAt := now + max 0 (sleepArg task), acquires := 1 }

/-- The schedule with request number `i` left out: its arrival and all its steps
are dropped and the requests after it are renumbered.  `n` is the number of
requests that have arrived before the schedule starts. -/
def eraseReq (i : Nat) : Nat → List Action → List Action
  | _, [] => []
  | n, Action.arrive body :: rest =>
    if n = i then eraseReq i (n + 1) rest
    else Action.arrive body :: eraseReq i (n + 1) rest
  | n, Action.tick dt :: rest => Action.tick dt :: eraseReq i n rest
  | n, Action.run j :: rest =>
    if j = i then eraseReq i n rest
    else if i < j then Action.run (j - 1) :: eraseReq i n rest
    else Action.run j :: eraseReq i n rest

/-- The relation between a run and the run in which request `i` never arrived:
same clock, same handlers apart from request `i`, both satisfying the system
invariant. -/
structure Sim (C i : Nat) (s s' : State) : Prop where
  inv : Inv C s
  inv' : Inv C s'
  now : s'.g.now = s.g.now
  reqs : s'.reqs = s.reqs.eraseIdx i

/-- Number of requests that have arrived after an action. -/
def arrivedAfter (n : Nat) : Action → Nat
  | Action.arrive _ => n + 1
  | _ => n

/-! ## Arithmetic and list lemmas -/

theorem wrapInt64_of_range (x : Int) (h1 : -(2 ^ 63) ≤ x) (h2 : x < 2 ^ 63) :
    wrapInt64 x = x := by
  unfold wrapInt64
  omega

theorem wrapInt64_add_left (a b : Int) :
    wrapInt64 (wrapInt64 a + b) = wrapInt64 (a + b) := by
  unfold wrapInt64
  omega

theorem wrapInt64_range (x : Int) : -(2 ^ 63) ≤ wrapInt64 x ∧ wrapInt64 x < 2 ^ 63 := by
  unfold wrapInt64
  omega

theorem total_nil (f : Req → Int) : total f [] = 0 := rfl

theorem total_cons (f : Req → Int) (r : Req) (l : List Req) :
    total f (r :: l) = f r + total f l := by
  simp [total]

theorem total_append (f : Req → Int) (l₁ l₂ : List Req) :
    total f (l₁ ++ l₂) = total f l₁ + total f l₂ := by
  simp [total]

theorem total_set (f : Req → Int) :
    ∀ (l : List Req) (i : Nat) (r r' : Req), l[i]? = some r →
      total f (l.set i r') = total f l - f r + f r' := by
  intro l
  induction l with
  | nil => intro i r r' h; simp at h
  | cons x xs ih =>
    intro i r r' h
    cases i with
    | zero =>
      simp at h
      subst h
      simp only [List.set_cons_zero, total_cons]
      omega
    | succ j =>
      simp at h
      simp only [List.set_cons_succ, total_cons, ih j r r' h]
      omega

theorem total_congr (f g : Req → Int) (l : List Req) (h : ∀ r ∈ l, f r = g r) :
    total f l = total g l := by
  induction l with
  | nil => rfl
  | cons x xs ih =>
    rw [total_cons, total_cons, h x (List.mem_cons_self x xs),
      ih (fun r hr => h r (List.mem_cons_of_mem x hr))]

theorem total_add (f g : Req → Int) (l : List Req) :
    total (fun r => f r + g r) l = total f l + total g l := by
  induction l with
  | nil => rfl
  | cons x xs ih => rw [total_cons, total_cons, total_cons, ih]; omega

theorem countP_eq_total (p : Req → Bool) (l : List Req) :
    (l.countP p : Int) = total (fun r => ind (p r)) l := by
  induction l with
  | nil => rfl
  | cons x xs ih =>
    rw [total_cons, ← ih, List.countP_cons]
    cases hp : p x <;> simp [ind]
    omega

theorem filter_sum_eq_total (p : Req → Bool) (f : Req → Int) (l : List Req) :
    ((l.filter p).map f).sum = total (fun r => if p r then f r else 0) l := by
  induction l with
  | nil => rfl
  | cons x xs ih =>
    rw [total_cons, ← ih]
    cases hp : p x <;> simp [List.filter_cons, hp]

/-! ## The invariants hold in every reachable state -/

theorem local_newReq (now : Int) (body : Option Task) : Local now (newReq body) := by
  constructor <;> simp [newReq, acquiresAt, releasesAt, responseAt, PC.measured]

theorem local_mono {now now' : Int} {r : Req} (h : Local now r) (hle : now ≤ now') :
    Local now' r := by
  refine { h with started := ?_, slept := ?_ }
  · intro hp; have := h.started hp; omega
  · intro hp; have := h.slept hp; omega

theorem measure_lower_bound (start now a : Int) (ha : a < 2 ^ 63)
    (h : start + max 0 a ≤ now) :
    durationMilliseconds (max 0 a) ≤ durationMilliseconds (timeSince start now) := by
  unfold durationMilliseconds timeSince maxInt64 minInt64
  have h0 : (0 : Int) ≤ max 0 a := le_max_left _ _
  have h1 : max 0 a ≤ max (-(2 ^ 63)) (min (2 ^ 63 - 1) (now - start)) := by
    omega
  rw [Int.tdiv_eq_ediv h0 (by omega), Int.tdiv_eq_ediv (le_trans h0 h1) (by omega)]
  omega

theorem local_step {g g' : Shared} {r r' : Req} (hl : Local g.now r)
    (h : stepReq g r = some (g', r')) : Local g'.now r' := by
  obtain ⟨acq, rel, resp, decoded, failed, started, asleep, slept, waited⟩ := hl
  unfold stepReq at h
  cases hpc : r.pc <;> simp only [hpc] at h
  case decode =>
    cases hb : r.body <;> simp only [hb] at h
    · obtain ⟨rfl, rfl⟩ := by simpa using h
      constructor <;> simp_all [acquiresAt, releasesAt, responseAt, PC.measured]
    · obtain ⟨rfl, rfl⟩ := by simpa using h
      constructor <;> simp_all [acquiresAt, releasesAt, responseAt, PC.measured]
  case acquire =>
    cases hc : g.concurrencyLimiter.send <;> simp only [hc] at h
    · simp at h
    · obtain ⟨rfl, rfl⟩ := by simpa using h
      constructor <;> simp_all [acquiresAt, releasesAt, responseAt, PC.measured]
  case release =>
    cases hc : g.concurrencyLimiter.recv <;> simp only [hc] at h
    · simp at h
    · obtain ⟨rfl, rfl⟩ := by simpa using h
      constructor <;> simp_all [acquiresAt, releasesAt, responseAt, PC.measured]
  case wake =>
    split at h
    · rename_i hw
      obtain ⟨rfl, rfl⟩ := by simpa using h
      constructor <;> simp_all [acquiresAt, releasesAt, responseAt, PC.measured]
      omega
    · simp at h
  case measure =>
    obtain ⟨rfl, rfl⟩ := by simpa using h
    have hb := measure_lower_bound r.start g.now (sleepArg r.task)
      (wrapInt64_range (r.task.Duration * Millisecond)).2 (slept hpc)
    constructor <;> simp_all [acquiresAt, releasesAt, responseAt, PC.measured]
  case rejected => simp at h
  case done => simp at h
  all_goals
    simp only [Option.some.injEq, Prod.mk.injEq] at h
    obtain ⟨rfl, rfl⟩ := h
    simp only [hpc, acquiresAt, releasesAt, responseAt, PC.measured, ne_eq, reduceCtorEq,
      not_false_eq_true, not_true_eq_false, false_implies, true_implies, forall_const,
      imp_self] at acq rel resp decoded failed started asleep slept waited
    constructor <;> simp [acquiresAt, releasesAt, responseAt, PC.measured, *]

theorem stepReq_effect {g g' : Shared} {r r' : Req}
    (h : stepReq g r = some (g', r')) : Effect g r g' r' := by
  unfold stepReq at h
  cases hpc : r.pc <;> simp only [hpc] at h
  case decode =>
    cases hb : r.body <;> simp only [hb] at h
    all_goals
      simp only [Option.some.injEq, Prod.mk.injEq] at h
      obtain ⟨rfl, rfl⟩ := h
      constructor <;>
        simp [hpc, ind, timeShare, PC.holding, PC.active, PC.counted, PC.timed]
  case acquire =>
    by_cases hlt : g.concurrencyLimiter.len < g.concurrencyLimiter.cap
    · simp only [Chan.send, hlt, if_true, Option.some.injEq, Prod.mk.injEq] at h
      obtain ⟨rfl, rfl⟩ := h
      constructor <;>
        simp [hpc, ind, timeShare, PC.holding, PC.active, PC.counted, PC.timed]
      omega
    · simp [Chan.send, hlt] at h
  case release =>
    by_cases hlt : 0 < g.concurrencyLimiter.len
    · simp only [Chan.recv, hlt, if_true, Option.some.injEq, Prod.mk.injEq] at h
      obtain ⟨rfl, rfl⟩ := h
      constructor <;>
        simp [hpc, ind, timeShare, PC.holding, PC.active, PC.counted, PC.timed]
      · omega
      · omega
    · simp [Chan.recv, hlt] at h
  case wake =>
    split at h
    · simp only [Option.some.injEq, Prod.mk.injEq] at h
      obtain ⟨rfl, rfl⟩ := h
      constructor <;>
        simp [hpc, ind, timeShare, PC.holding, PC.active, PC.counted, PC.timed]
    · simp at h
  case rejected => simp at h
  case done => simp at h
  case markActive =>
    simp only [Option.some.injEq, Prod.mk.injEq] at h
    obtain ⟨rfl, rfl⟩ := h
    constructor <;>
      simp [hpc, ind, timeShare, PC.holding, PC.active, PC.counted, PC.timed]
    intro n hn
    rw [hn, atomicAddInt64, wrapInt64_add_left]
  case unmarkActive =>
    simp only [Option.some.injEq, Prod.mk.injEq] at h
    obtain ⟨rfl, rfl⟩ := h
    constructor <;>
      simp [hpc, ind, timeShare, PC.holding, PC.active, PC.counted, PC.timed]
    intro n hn
    rw [hn, atomicAddInt64, wrapInt64_add_left]
    congr 1
    omega
  case addTotal =>
    simp only [Option.some.injEq, Prod.mk.injEq] at h
    obtain ⟨rfl, rfl⟩ := h
    constructor <;>
      simp [hpc, ind, timeShare, PC.holding, PC.active, PC.counted, PC.timed]
    intro n hn
    rw [hn, atomicAddInt64, wrapInt64_add_left]
  case addTime =>
    simp only [Option.some.injEq, Prod.mk.injEq] at h
    obtain ⟨rfl, rfl⟩ := h
    constructor <;>
      simp [hpc, ind, timeShare, PC.holding, PC.active, PC.counted, PC.timed]
    intro n hn
    rw [hn, atomicAddInt64, wrapInt64_add_left]
  all_goals
    simp only [Option.some.injEq, Prod.mk.injEq] at h
    obtain ⟨rfl, rfl⟩ := h
    constructor <;>
      simp [hpc, ind, timeShare, PC.holding, PC.active, PC.counted, PC.timed]

theorem inv_init (C : Nat) : Inv C (init C) := by
  constructor <;> simp [init, Chan.make, total, wrapInt64]

theorem inv_step {C : Nat} {s s' : State} {a : Action} (hi : Inv C s)
    (h : step s a = some s') : Inv C s' := by
  obtain ⟨cap, len, bound, active, count, time, loc⟩ := hi
  cases a with
  | arrive body =>
    simp only [step, Option.some.injEq] at h
    subst h
    constructor
    · exact cap
    · simpa [total_append, total_cons, total_nil, newReq, PC.holding, ind] using len
    · exact bound
    · simpa [total_append, total_cons, total_nil, newReq, PC.active, ind] using active
    · simpa [total_append, total_cons, total_nil, newReq, PC.counted, ind] using count
    · simpa [total_append, total_cons, total_nil, newReq, PC.timed, timeShare] using time
    · intro r hr
      rcases List.mem_append.mp hr with hr | hr
      · exact loc r hr
      · rw [List.mem_singleton.mp hr]
        exact local_newReq _ _
  | tick dt =>
    simp only [step, Option.some.injEq] at h
    subst h
    refine ⟨cap, len, bound, active, count, time, ?_⟩
    intro r hr
    exact local_mono (loc r hr) (by simp)
  | run i =>
    simp only [step] at h
    cases hr : s.reqs[i]? with
    | none => simp [hr] at h
    | some r =>
      simp only [hr] at h
      cases hs : stepReq s.g r with
      | none => simp [hs] at h
      | some p =>
        obtain ⟨g', r'⟩ := p
        simp only [hs, Option.some.injEq] at h
        subst h
        have he := stepReq_effect hs
        have hmem : r ∈ s.reqs := List.getElem?_mem hr
        constructor
        · simpa [he.cap] using cap
        · have := he.len
          simp only [total_set _ _ _ _ _ hr]
          omega
        · exact he.bound bound
        · simp only [total_set _ _ _ _ _ hr]
          apply he.active
          rw [active]
          congr 1
          omega
        · simp only [total_set _ _ _ _ _ hr]
          apply he.count
          rw [count]
          congr 1
          omega
        · simp only [total_set _ _ _ _ _ hr]
          apply he.time
          rw [time]
          congr 1
          omega
        · intro x hx
          rcases List.mem_or_eq_of_mem_set hx with hx | hx
          · have := loc x hx
            simpa [he.now] using this
          · subst hx
            exact local_step (loc r hmem) hs

theorem inv_exec {C : Nat} : ∀ (acts : List Action) (s s' : State), Inv C s →
    exec s acts = some s' → Inv C s' := by
  intro acts
  induction acts with
  | nil =>
    intro s s' hi h
    simp only [exec, Option.some.injEq] at h
    subst h
    exact hi
  | cons a as ih =>
    intro s s' hi h
    simp only [exec] at h
    cases hs : step s a with
    | none => simp [hs] at h
    | some s₁ =>
      simp only [hs] at h
      exact ih s₁ s' (inv_step hi hs) h

theorem inv_reachable {C : Nat} {acts : List Action} {s : State}
    (h : exec (init C) acts = some s) : Inv C s :=
  inv_exec acts (init C) s (inv_init C) h

/-! ## Consequences of the invariants -/

theorem holders_eq_len {C : Nat} {s : State} (hi : Inv C s) :
    holders s = s.g.concurrencyLimiter.len := by
  have h1 := hi.len
  have h2 := countP_eq_total (fun r => r.pc.holding) s.reqs
  unfold holders
  omega

theorem holders_le {C : Nat} {s : State} (hi : Inv C s) : holders s ≤ C := by
  have h1 := holders_eq_len hi
  have h2 := hi.bound
  have h3 := hi.cap
  omega

theorem holders_split (s : State) : holders s = actives s + inTransit s := by
  have h1 := countP_eq_total (fun r => r.pc.holding) s.reqs
  have h2 := countP_eq_total (fun r => r.pc.active) s.reqs
  have h3 := countP_eq_total
    (fun r => decide (r.pc = PC.markActive ∨ r.pc = PC.release)) s.reqs
  have h4 : total (fun r => ind r.pc.holding) s.reqs =
      total (fun r => ind r.pc.active +
        ind (decide (r.pc = PC.markActive ∨ r.pc = PC.release))) s.reqs := by
    apply total_congr
    intro r _
    cases r.pc <;> simp [ind, PC.holding, PC.active]
  rw [total_add] at h4
  unfold holders actives inTransit
  omega

theorem workers_le_holders (s : State) : workers s ≤ holders s := by
  unfold workers holders
  apply List.countP_mono_left
  intro r _ h
  revert h
  cases r.pc <;> simp [PC.working, PC.holding]

theorem active_eq_actives {C : Nat} {s : State} (hi : Inv C s)
    (hC : (C : Int) ≤ maxInt64) : s.g.metrics.ActiveRequests = (actives s : Int) := by
  have h1 := hi.active
  have h2 := countP_eq_total (fun r => r.pc.active) s.reqs
  have h3 := holders_split s
  have h4 := holders_le hi
  unfold maxInt64 at hC
  rw [h1, ← h2]
  apply wrapInt64_of_range
  · unfold actives at h3; omega
  · unfold actives at h3; omega

theorem actives_quiescent (s : State) (hq : quiescent s) : actives s = 0 := by
  unfold actives
  rw [List.countP_eq_zero]
  intro r hr
  have := hq r hr
  revert this
  cases r.pc <;> simp [PC.finished, PC.active]

/-! ## Completion counters -/

theorem total_nonneg (f : Req → Int) (l : List Req) (h : ∀ r ∈ l, 0 ≤ f r) :
    0 ≤ total f l := by
  induction l with
  | nil => simp [total]
  | cons x xs ih =>
    rw [total_cons]
    have h1 := h x (List.mem_cons_self x xs)
    have h2 := ih (fun r hr => h r (List.mem_cons_of_mem x hr))
    omega

theorem durationMilliseconds_nonneg (d : Int) (h : 0 ≤ d) : 0 ≤ durationMilliseconds d := by
  unfold durationMilliseconds
  rw [Int.tdiv_eq_ediv h (by omega)]
  omega

theorem finished_counted {now : Int} {r : Req} (hl : Local now r)
    (hf : r.pc.finished = true) :
    ind r.pc.counted = ind r.body.isSome ∧
      timeShare r = (if r.body.isSome then r.elapsed else 0) ∧
      (r.body.isSome = true → 0 ≤ r.elapsed) := by
  cases hpc : r.pc <;> simp [hpc, PC.finished] at hf
  · have hb := hl.failed hpc
    simp [hpc, hb, PC.counted, timeShare, PC.timed]
  · have hb := hl.decoded (by simp [hpc]) (by simp [hpc])
    have hw := hl.waited (by simp [hpc, PC.measured])
    have h0 := durationMilliseconds_nonneg (max 0 (sleepArg r.task)) (le_max_left _ _)
    simp [hpc, hb, PC.counted, timeShare, PC.timed]
    omega

theorem counters_quiescent {C : Nat} {s : State} (hi : Inv C s) (hq : quiescent s) :
    s.g.metrics.TotalRequests = wrapInt64 (wellFormed s) ∧
      s.g.metrics.AverageProcessingTime = wrapInt64 (elapsedTotal s) ∧
      0 ≤ elapsedTotal s := by
  have h1 : total (fun r => ind r.pc.counted) s.reqs =
      total (fun r => ind r.body.isSome) s.reqs :=
    total_congr _ _ _ (fun r hr => (finished_counted (hi.loc r hr) (hq r hr)).1)
  have h2 : total timeShare s.reqs =
      total (fun r => if r.body.isSome then r.elapsed else 0) s.reqs :=
    total_congr _ _ _ (fun r hr => (finished_counted (hi.loc r hr) (hq r hr)).2.1)
  have h3 := countP_eq_total (fun r => r.body.isSome) s.reqs
  have h4 := filter_sum_eq_total (fun r => r.body.isSome) (fun r => r.elapsed) s.reqs
  have h5 : 0 ≤ total (fun r => if r.body.isSome then r.elapsed else 0) s.reqs := by
    apply total_nonneg
    intro r hr
    have := (finished_counted (hi.loc r hr) (hq r hr)).2.2
    cases hb : r.body.isSome
    · simp
    · simpa [hb] using this hb
  refine ⟨?_, ?_, ?_⟩
  · rw [hi.count, h1, ← h3]; rfl
  · rw [hi.time, h2, ← h4]; rfl
  · unfold elapsedTotal; omega

theorem stepReq_counters {g g' : Shared} {r r' : Req}
    (h : stepReq g r = some (g', r')) :
    g'.metrics.TotalRequests =
        (if r.pc = PC.addTotal then atomicAddInt64 g.metrics.TotalRequests 1
         else g.metrics.TotalRequests) ∧
      g'.metrics.AverageProcessingTime =
        (if r.pc = PC.addTime then
           atomicAddInt64 g.metrics.AverageProcessingTime r.elapsed
         else g.metrics.AverageProcessingTime) := by
  unfold stepReq at h
  cases hpc : r.pc <;> simp only [hpc] at h
  case decode =>
    cases hb : r.body <;> simp only [hb] at h
    all_goals
      simp only [Option.some.injEq, Prod.mk.injEq] at h
      obtain ⟨rfl, rfl⟩ := h
      simp
  case acquire =>
    cases hc : g.concurrencyLimiter.send <;> simp only [hc] at h
    · simp at h
    · simp only [Option.some.injEq, Prod.mk.injEq] at h
      obtain ⟨rfl, rfl⟩ := h
      simp
  case release =>
    cases hc : g.concurrencyLimiter.recv <;> simp only [hc] at h
    · simp at h
    · simp only [Option.some.injEq, Prod.mk.injEq] at h
      obtain ⟨rfl, rfl⟩ := h
      simp
  case wake =>
    split at h
    · simp only [Option.some.injEq, Prod.mk.injEq] at h
      obtain ⟨rfl, rfl⟩ := h
      simp
    · simp at h
  case rejected => simp at h
  case done => simp at h
  all_goals
    simp only [Option.some.injEq, Prod.mk.injEq] at h
    obtain ⟨rfl, rfl⟩ := h
    simp

theorem Atoi_range (str : String) (n : Int) (h : Atoi str = Except.ok n) :
    minInt64 ≤ n ∧ n ≤ maxInt64 := by
  have key : ∀ v : Int, checkRange v = Except.ok n → minInt64 ≤ n ∧ n ≤ maxInt64 := by
    intro v hv
    unfold checkRange at hv
    split at hv
    · simp at hv
    · simp only [Except.ok.injEq] at hv
      subst hv
      omega
  unfold Atoi at h
  simp only at h
  split at h
  · simp at h
  · exact key _ h

/-! ## Slot pairing -/

theorem total_eraseIdx (f : Req → Int) :
    ∀ (l : List Req) (i : Nat) (r : Req), l[i]? = some r →
      total f (l.eraseIdx i) = total f l - f r := by
  intro l
  induction l with
  | nil => intro i r h; simp at h
  | cons x xs ih =>
    intro i r h
    cases i with
    | zero =>
      simp at h
      subst h
      simp only [List.eraseIdx_cons_zero, total_cons]
      omega
    | succ j =>
      simp at h
      simp only [List.eraseIdx_cons_succ, total_cons, ih j r h]
      omega

theorem holding_eq_balance {now : Int} {r : Req} (hl : Local now r) :
    ind r.pc.holding = (r.acquires : Int) - (r.releases : Int) := by
  rw [hl.acq, hl.rel]
  cases r.pc <;> simp [ind, PC.holding, acquiresAt, releasesAt]

theorem finished_balance {now : Int} {r : Req} (hl : Local now r)
    (hf : r.pc.finished = true) :
    r.acquires = r.releases ∧ r.acquires = (if r.body.isSome then 1 else 0) ∧
      r.pc.holding = false := by
  rw [hl.acq, hl.rel]
  cases hpc : r.pc <;> simp [hpc, PC.finished] at hf
  · have hb := hl.failed hpc
    simp [hb, acquiresAt, releasesAt, PC.holding]
  · have hb := hl.decoded (by simp [hpc]) (by simp [hpc])
    simp [hb, acquiresAt, releasesAt, PC.holding]

/-! ## A handler run on its own -/

theorem set_self_of_getElem : ∀ (l : List Req) (i : Nat) (r : Req),
    l[i]? = some r → l.set i r = l := by
  intro l
  induction l with
  | nil => intro i r h; simp at h
  | cons x xs ih =>
    intro i r h
    cases i with
    | zero => simp at h; subst h; rfl
    | succ j => simp at h; simp [ih j r h]

theorem getElem_set_of_getElem : ∀ (l : List Req) (i : Nat) (r r' : Req),
    l[i]? = some r → (l.set i r')[i]? = some r' := by
  intro l
  induction l with
  | nil => intro i r r' h; simp at h
  | cons x xs ih =>
    intro i r r' h
    cases i with
    | zero => simp
    | succ j => simp at h; simpa using ih j r r' h

theorem exec_append (s : State) (a b : List Action) :
    exec s (a ++ b) =
      match exec s a with
      | none => none
      | some s' => exec s' b := by
  induction a generalizing s with
  | nil => simp [exec]
  | cons x xs ih =>
    simp only [List.cons_append, exec]
    cases step s x with
    | none => rfl
    | some s₁ => exact ih s₁

theorem exec_runs : ∀ (n : Nat) (s : State) (i : Nat) (r : Req) (g' : Shared) (r' : Req),
    s.reqs[i]? = some r → runReq n s.g r = some (g', r') →
      exec s (runs i n) = some { g := g', reqs := s.reqs.set i r' } := by
  intro n
  induction n with
  | zero =>
    intro s i r g' r' hr h
    simp only [runReq, Option.some.injEq, Prod.mk.injEq] at h
    obtain ⟨rfl, rfl⟩ := h
    simp [runs, exec, set_self_of_getElem _ _ _ hr]
  | succ k ih =>
    intro s i r g' r' hr h
    simp only [runReq] at h
    cases hs : stepReq s.g r with
    | none => simp [hs] at h
    | some p =>
      obtain ⟨g₁, r₁⟩ := p
      simp only [hs] at h
      have h1 : step s (Action.run i) = some { g := g₁, reqs := s.reqs.set i r₁ } := by
        simp [step, hr, hs]
      have h2 := ih { g := g₁, reqs := s.reqs.set i r₁ } i r₁ g' r'
        (getElem_set_of_getElem _ _ _ _ hr) h
      simp only [runs, List.replicate_succ, exec, h1]
      simpa [runs, List.set_set] using h2

theorem runReq_to_sleep (g : Shared) (task : Task)
    (hfree : g.concurrencyLimiter.len < g.concurrencyLimiter.cap) :
    runReq 5 g (newReq (some task)) =
      some ({ concurrencyLimiter :=
                { cap := g.concurrencyLimiter.cap, len := g.concurrencyLimiter.len + 1 },
              metrics := { g.metrics with
                ActiveRequests := atomicAddInt64 g.metrics.ActiveRequests 1 },
              now := g.now },
            sleeper task g.now) := by
  simp [runReq, stepReq, newReq, Chan.send, hfree, sleeper]

theorem runReq_from_sleep (g : Shared) (r : Req) (hpc : r.pc = PC.wake)
    (hw : r.wakeAt ≤ g.now) (hlen : 0 < g.concurrencyLimiter.len) :
    ∃ g' r', runReq 7 g r = some (g', r') ∧ r'.pc = PC.done ∧
      r'.response = some (successResponse r.task) ∧ r'.body = r.body ∧
      g'.concurrencyLimiter =
        { cap := g.concurrencyLimiter.cap, len := g.concurrencyLimiter.len - 1 } ∧
      r'.elapsed = durationMilliseconds (timeSince r.start g.now) := by
  simp only [runReq, stepReq, hpc, hw, Chan.recv, hlen, if_true]
  exact ⟨_, _, rfl, rfl, rfl, rfl, rfl, rfl⟩

theorem solo_run (s : State) (task : Task) (dt : Nat)
    (hfree : s.g.concurrencyLimiter.len < s.g.concurrencyLimiter.cap)
    (hdt : max 0 (sleepArg task) ≤ (dt : Int)) :
    ∃ g' r', exec s (soloSchedule s.reqs.length (some task) dt) =
        some { g := g', reqs := s.reqs ++ [r'] } ∧
      r'.pc = PC.done ∧ r'.response = some (successResponse task) ∧
      r'.body = some task ∧ g'.concurrencyLimiter = s.g.concurrencyLimiter ∧
      r'.elapsed = durationMilliseconds (timeSince s.g.now (s.g.now + dt)) := by
  let g₁ : Shared :=
    { concurrencyLimiter :=
        { cap := s.g.concurrencyLimiter.cap, len := s.g.concurrencyLimiter.len + 1 },
      metrics := { s.g.metrics with
        ActiveRequests := atomicAddInt64 s.g.metrics.ActiveRequests 1 },
      now := s.g.now }
  let g₂ : Shared := { g₁ with now := s.g.now + dt }
  let l₁ : List Req := s.reqs ++ [newReq (some task)]
  let l₂ : List Req := s.reqs ++ [sleeper task s.g.now]
  have e1 : exec s [Action.arrive (some task)] = some { g := s.g, reqs := l₁ } := rfl
  have e2 : exec { g := s.g, reqs := l₁ } (runs s.reqs.length 5) =
      some { g := g₁, reqs := l₂ } := by
    have := exec_runs 5 { g := s.g, reqs := l₁ } s.reqs.length (newReq (some task))
      g₁ (sleeper task s.g.now) (by simp [l₁]) (runReq_to_sleep s.g task hfree)
    simpa [l₁, l₂] using this
  have e3 : exec { g := g₁, reqs := l₂ } [Action.tick dt] =
      some { g := g₂, reqs := l₂ } := rfl
  obtain ⟨g', r', h2, h3, h4, h5, h6, h8⟩ := runReq_from_sleep g₂ (sleeper task s.g.now) rfl
    (by simp only [sleeper, g₂]; omega) (by simp [g₂, g₁])
  have e4 : exec { g := g₂, reqs := l₂ } (runs s.reqs.length 7) =
      some { g := g', reqs := s.reqs ++ [r'] } := by
    have := exec_runs 7 { g := g₂, reqs := l₂ } s.reqs.length (sleeper task s.g.now)
      g' r' (by simp [l₂]) h2
    simpa [l₂] using this
  refine ⟨g', r', ?_, h3, ?_, ?_, ?_, ?_⟩
  · unfold soloSchedule
    rw [exec_append, exec_append, exec_append, e1]
    simp only [e2, e3, e4]
  · rw [h4]; rfl
  · rw [h5]; rfl
  · rw [h6]; simp [g₂, g₁]
  · rw [h8]; rfl

/-! ## The run in which one request never arrived -/

theorem eraseIdx_set_eq : ∀ (l : List Req) (i : Nat) (r : Req),
    (l.set i r).eraseIdx i = l.eraseIdx i := by
  intro l
  induction l with
  | nil => intro i r; rfl
  | cons x xs ih =>
    intro i r
    cases i with
    | zero => rfl
    | succ j => simp [ih j r]

theorem eraseIdx_set_lt : ∀ (l : List Req) (i j : Nat) (r : Req), j < i →
    (l.set j r).eraseIdx i = (l.eraseIdx i).set j r := by
  intro l
  induction l with
  | nil => intro i j r _; rfl
  | cons x xs ih =>
    intro i j r h
    cases i with
    | zero => omega
    | succ i' =>
      cases j with
      | zero => rfl
      | succ j' => simp [ih i' j' r (by omega)]

theorem eraseIdx_set_gt : ∀ (l : List Req) (i j : Nat) (r : Req), i < j →
    (l.set j r).eraseIdx i = (l.eraseIdx i).set (j - 1) r := by
  intro l
  induction l with
  | nil => intro i j r _; rfl
  | cons x xs ih =>
    intro i j r h
    cases j with
    | zero => omega
    | succ j' =>
      cases i with
      | zero => simp
      | succ i' =>
        have := ih i' j' r (by omega)
        cases j' with
        | zero => omega
        | succ k => simpa using this

theorem total_eraseIdx_le (f : Req → Int) (hf : ∀ r, 0 ≤ f r) (l : List Req) (i : Nat) :
    total f (l.eraseIdx i) ≤ total f l := by
  cases h : l[i]? with
  | none =>
    rw [List.eraseIdx_of_length_le (by simpa using h)]
  | some r =>
    rw [total_eraseIdx f l i r h]
    have := hf r
    omega

theorem le_total_of_mem (f : Req → Int) (hf : ∀ r, 0 ≤ f r) (l : List Req) (r : Req)
    (hr : r ∈ l) : f r ≤ total f l := by
  induction l with
  | nil => simp at hr
  | cons x xs ih =>
    rw [total_cons]
    have h0 := total_nonneg f xs (fun y _ => hf y)
    rcases List.mem_cons.mp hr with h | h
    · subst h; omega
    · have := ih h
      have := hf x
      omega

theorem ind_nonneg (b : Bool) : 0 ≤ ind b := by
  cases b <;> simp [ind]

/-- A step a handler takes against one shared state it also takes, with the same
effect on its own variables, against any other shared state with the same clock
in which its channel operation is possible. -/
theorem stepReq_transfer {g h g₁ : Shared} {r r₁ : Req}
    (hs : stepReq g r = some (g₁, r₁)) (hnow : h.now = g.now)
    (hsend : r.pc = PC.acquire → h.concurrencyLimiter.len < h.concurrencyLimiter.cap)
    (hrecv : r.pc = PC.release → 0 < h.concurrencyLimiter.len) :
    ∃ h₁, stepReq h r = some (h₁, r₁) := by
  unfold stepReq at hs ⊢
  cases hpc : r.pc <;> simp only [hpc] at hs ⊢
  case decode =>
    cases hb : r.body <;> simp only [hb] at hs ⊢
    all_goals
      simp only [Option.some.injEq, Prod.mk.injEq] at hs
      obtain ⟨_, rfl⟩ := hs
      exact ⟨_, rfl⟩
  case acquire =>
    by_cases hlt : g.concurrencyLimiter.len < g.concurrencyLimiter.cap
    · simp only [Chan.send, hlt, if_true, Option.some.injEq, Prod.mk.injEq] at hs
      obtain ⟨_, rfl⟩ := hs
      simp only [Chan.send, hsend hpc, if_true]
      exact ⟨_, rfl⟩
    · simp [Chan.send, hlt] at hs
  case release =>
    by_cases hlt : 0 < g.concurrencyLimiter.len
    · simp only [Chan.recv, hlt, if_true, Option.some.injEq, Prod.mk.injEq] at hs
      obtain ⟨_, rfl⟩ := hs
      simp only [Chan.recv, hrecv hpc, if_true]
      exact ⟨_, rfl⟩
    · simp [Chan.recv, hlt] at hs
  case wake =>
    by_cases hw : r.wakeAt ≤ g.now
    · simp only [hw, if_true, Option.some.injEq, Prod.mk.injEq] at hs
      obtain ⟨_, rfl⟩ := hs
      simp only [hnow, hw, if_true]
      exact ⟨_, rfl⟩
    · simp [hw] at hs
  case rejected => simp at hs
  case done => simp at hs
  all_goals
    simp only [Option.some.injEq, Prod.mk.injEq] at hs
    obtain ⟨_, rfl⟩ := hs
    try simp only [hnow]
    exact ⟨_, rfl⟩

theorem eraseReq_cons (i n : Nat) (a : Action) (rest : List Action) :
    eraseReq i n (a :: rest) = eraseReq i n [a] ++ eraseReq i (arrivedAfter n a) rest := by
  cases a with
  | arrive body =>
    by_cases h : n = i <;> simp [eraseReq, arrivedAfter, h]
  | tick dt => simp [eraseReq, arrivedAfter]
  | run j =>
    by_cases h : j = i
    · simp [eraseReq, arrivedAfter, h]
    · by_cases h2 : i < j <;> simp [eraseReq, arrivedAfter, h, h2]

theorem step_length {s t : State} {a : Action} (h : step s a = some t) :
    t.reqs.length = arrivedAfter s.reqs.length a := by
  cases a with
  | arrive body =>
    simp only [step, Option.some.injEq] at h
    subst h
    simp [arrivedAfter]
  | tick dt =>
    simp only [step, Option.some.injEq] at h
    subst h
    simp [arrivedAfter]
  | run j =>
    simp only [step] at h
    cases hr : s.reqs[j]? with
    | none => simp [hr] at h
    | some r =>
      simp only [hr] at h
      cases hs : stepReq s.g r with
      | none => simp [hs] at h
      | some p =>
        simp only [hs, Option.some.injEq] at h
        subst h
        simp [arrivedAfter]

theorem sim_run_other {C i j k : Nat} {s s' : State} {r r₁ : Req} {g₁ : Shared}
    (hsim : Sim C i s s') (hr : s.reqs[j]? = some r) (hk : s'.reqs[k]? = some r)
    (hs : stepReq s.g r = some (g₁, r₁))
    (hset : (s.reqs.set j r₁).eraseIdx i = (s.reqs.eraseIdx i).set k r₁) :
    ∃ t', step s' (Action.run k) = some t' ∧
      Sim C i { g := g₁, reqs := s.reqs.set j r₁ } t' := by
  have hstep : step s (Action.run j) = some { g := g₁, reqs := s.reqs.set j r₁ } := by
    simp [step, hr, hs]
  have hmem' : r ∈ s'.reqs := List.getElem?_mem hk
  have hle : total (fun x => ind x.pc.holding) s'.reqs ≤
      total (fun x => ind x.pc.holding) s.reqs := by
    rw [hsim.reqs]
    exact total_eraseIdx_le _ (fun x => ind_nonneg _) _ _
  have hsend : r.pc = PC.acquire →
      s'.g.concurrencyLimiter.len < s'.g.concurrencyLimiter.cap := by
    intro hpc
    have h1 : s.g.concurrencyLimiter.len < s.g.concurrencyLimiter.cap := by
      by_cases hlt : s.g.concurrencyLimiter.len < s.g.concurrencyLimiter.cap
      · exact hlt
      · simp [stepReq, hpc, Chan.send, hlt] at hs
    have h2 := hsim.inv.len
    have h3 := hsim.inv'.len
    have h4 := hsim.inv.cap
    have h5 := hsim.inv'.cap
    omega
  have hrecv : r.pc = PC.release → 0 < s'.g.concurrencyLimiter.len := by
    intro hpc
    have h1 := le_total_of_mem (fun x => ind x.pc.holding) (fun x => ind_nonneg _)
      s'.reqs r hmem'
    have h2 : ind r.pc.holding = 1 := by simp [hpc, ind, PC.holding]
    have h3 := hsim.inv'.len
    simp only [h2] at h1
    omega
  obtain ⟨h₁, hs'⟩ := stepReq_transfer hs hsim.now hsend hrecv
  have hstep' : step s' (Action.run k) = some { g := h₁, reqs := s'.reqs.set k r₁ } := by
    simp [step, hk, hs']
  refine ⟨_, hstep', ?_⟩
  constructor
  · exact inv_step hsim.inv hstep
  · exact inv_step hsim.inv' hstep'
  · have e1 := (stepReq_effect hs).now
    have e2 := (stepReq_effect hs').now
    simp only [e1, e2, hsim.now]
  · simp only [hset, hsim.reqs]

theorem sim_step {C i : Nat} {s s' t : State} {a : Action} (hsim : Sim C i s s')
    (h : step s a = some t) :
    ∃ t', exec s' (eraseReq i s.reqs.length [a]) = some t' ∧ Sim C i t t' := by
  cases a with
  | arrive body =>
    have ht := h
    simp only [step, Option.some.injEq] at ht
    subst ht
    by_cases hn : s.reqs.length = i
    · refine ⟨s', by simp [eraseReq, hn, exec], ?_⟩
      refine ⟨inv_step hsim.inv h, hsim.inv', hsim.now, ?_⟩
      rw [hsim.reqs, List.eraseIdx_of_length_le (by omega),
        List.eraseIdx_append_of_length_le (by omega)]
      simp [hn]
    · refine ⟨{ s' with reqs := s'.reqs ++ [newReq body] },
        by simp [eraseReq, hn, exec, step], ?_⟩
      refine ⟨inv_step hsim.inv h, inv_step hsim.inv' (a := Action.arrive body) rfl,
        hsim.now, ?_⟩
      simp only [hsim.reqs]
      by_cases hlt : i < s.reqs.length
      · rw [List.eraseIdx_append_of_lt_length hlt]
      · rw [List.eraseIdx_of_length_le (by omega),
          List.eraseIdx_of_length_le (by simp; omega)]
  | tick dt =>
    have ht := h
    simp only [step, Option.some.injEq] at ht
    subst ht
    refine ⟨{ s' with g := { s'.g with now := s'.g.now + dt } },
      by simp [eraseReq, exec, step], ?_⟩
    refine ⟨inv_step hsim.inv h, inv_step hsim.inv' (a := Action.tick dt) rfl, ?_,
      hsim.reqs⟩
    simp [hsim.now]
  | run j =>
    have ht := h
    simp only [step] at ht
    cases hr : s.reqs[j]? with
    | none => simp [hr] at ht
    | some r =>
      simp only [hr] at ht
      cases hs : stepReq s.g r with
      | none => simp [hs] at ht
      | some p =>
        obtain ⟨g₁, r₁⟩ := p
        simp only [hs, Option.some.injEq] at ht
        subst ht
        by_cases hji : j = i
        · subst hji
          refine ⟨s', by simp [eraseReq, exec], ?_⟩
          refine ⟨inv_step hsim.inv h, hsim.inv', ?_, ?_⟩
          · simp [hsim.now, (stepReq_effect hs).now]
          · simp [hsim.reqs, eraseIdx_set_eq]
        · by_cases hlt : i < j
          · have hk : s'.reqs[j - 1]? = some r := by
              rw [hsim.reqs, List.getElem?_eraseIdx_of_ge _ _ _ (by omega)]
              have : j - 1 + 1 = j := by omega
              rw [this, hr]
            obtain ⟨t', h1, h2⟩ := sim_run_other hsim hr hk hs
              (eraseIdx_set_gt _ _ _ _ hlt)
            exact ⟨t', by simp [eraseReq, hji, hlt, exec, h1], h2⟩
          · have hk : s'.reqs[j]? = some r := by
              rw [hsim.reqs, List.getElem?_eraseIdx_of_lt _ _ _ (by omega), hr]
            obtain ⟨t', h1, h2⟩ := sim_run_other hsim hr hk hs
              (eraseIdx_set_lt _ _ _ _ (by omega))
            exact ⟨t', by simp [eraseReq, hji, hlt, exec, h1], h2⟩

theorem sim_exec {C i : Nat} : ∀ (acts : List Action) (s s' t : State),
    Sim C i s s' → exec s acts = some t →
    ∃ t', exec s' (eraseReq i s.reqs.length acts) = some t' ∧ Sim C i t t' := by
  intro acts
  induction acts with
  | nil =>
    intro s s' t hsim h
    simp only [exec, Option.some.injEq] at h
    subst h
    exact ⟨s', by simp [eraseReq, exec], hsim⟩
  | cons a rest ih =>
    intro s s' t hsim h
    simp only [exec] at h
    cases hs : step s a with
    | none => simp [hs] at h
    | some s₁ =>
      simp only [hs] at h
      obtain ⟨s₁', h1, hsim₁⟩ := sim_step hsim hs
      obtain ⟨t', h2, hsim₂⟩ := ih s₁ s₁' t hsim₁ h
      refine ⟨t', ?_, hsim₂⟩
      rw [eraseReq_cons, exec_append, h1, ← step_length hs]
      exact h2

theorem erased_run {C : Nat} {acts : List Action} {s : State} {i : Nat} {r : Req}
    (h : exec (init C) acts = some s) (hr : s.reqs[i]? = some r) :
    ∃ s', exec (init C) (eraseReq i 0 acts) = some s' ∧
      s'.reqs = s.reqs.eraseIdx i ∧ s'.g.now = s.g.now ∧
      s'.g.concurrencyLimiter.cap = s.g.concurrencyLimiter.cap ∧
      (s'.g.concurrencyLimiter.len : Int) + ind r.pc.holding =
        s.g.concurrencyLimiter.len := by
  have h0 : Sim C i (init C) (init C) := ⟨inv_init C, inv_init C, rfl, rfl⟩
  obtain ⟨s', h1, hsim⟩ := sim_exec acts (init C) (init C) s h0 h
  refine ⟨s', h1, hsim.reqs, hsim.now, ?_, ?_⟩
  · rw [hsim.inv.cap, hsim.inv'.cap]
  · have h2 := hsim.inv.len
    have h3 := hsim.inv'.len
    rw [hsim.reqs, total_eraseIdx _ _ _ _ hr] at h3
    omega

/-! ## Many requests one after the other -/

theorem timeSince_shift (now : Int) (dt : Nat) :
    timeSince now (now + dt) = timeSince 0 dt := by
  unfold timeSince
  congr 2
  omega

theorem soloRuns_exec (task : Task) (dt : Nat) (hdt : max 0 (sleepArg task) ≤ (dt : Int)) :
    ∀ (k : Nat) (s : State),
      s.g.concurrencyLimiter.len < s.g.concurrencyLimiter.cap →
      ∃ s' l, exec s (soloRuns (some task) dt s.reqs.length k) = some s' ∧
        s'.reqs = s.reqs ++ l ∧ l.length = k ∧
        ∀ r ∈ l, r.pc = PC.done ∧ r.body = some task ∧
          r.elapsed = durationMilliseconds (timeSince 0 dt) := by
  intro k
  induction k with
  | zero =>
    intro s _
    exact ⟨s, [], rfl, by simp, rfl, by simp⟩
  | succ k ih =>
    intro s hfree
    obtain ⟨g', r', h1, h2, _, h4, h5, h6⟩ := solo_run s task dt hfree hdt
    have hfree' : g'.concurrencyLimiter.len < g'.concurrencyLimiter.cap := by
      rw [h5]; exact hfree
    obtain ⟨s', l, e1, e2, e3, e4⟩ := ih { g := g', reqs := s.reqs ++ [r'] } hfree'
    have hlen : ({ g := g', reqs := s.reqs ++ [r'] } : State).reqs.length =
        s.reqs.length + 1 := by simp
    rw [hlen] at e1
    refine ⟨s', r' :: l, ?_, ?_, ?_, ?_⟩
    · simp only [soloRuns]
      rw [exec_append, h1]
      exact e1
    · rw [e2]; simp
    · simp [e3]
    · intro r hr
      rcases List.mem_cons.mp hr with hr | hr
      · subst hr
        exact ⟨h2, h4, by rw [h6, timeSince_shift]⟩
      · exact e4 r hr

theorem uniform_totals (task : Task) (E : Int) :
    ∀ l : List Req, (∀ r ∈ l, r.pc = PC.done ∧ r.body = some task ∧ r.elapsed = E) →
      l.countP (fun r => r.body.isSome) = l.length ∧
        ((l.filter (fun r => r.body.isSome)).map (fun r => r.elapsed)).sum =
          (l.length : Int) * E := by
  intro l
  induction l with
  | nil => intro _; simp
  | cons x xs ih =>
    intro h
    obtain ⟨_, hb, he⟩ := h x (List.mem_cons_self x xs)
    obtain ⟨h1, h2⟩ := ih (fun r hr => h r (List.mem_cons_of_mem x hr))
    have hs : x.body.isSome = true := by simp [hb]
    refine ⟨?_, ?_⟩
    · simp only [List.countP_cons, hs, if_true, h1, List.length_cons]
    · simp only [List.filter_cons, hs, if_true, List.map_cons, List.sum_cons, h2, he,
        List.length_cons]
      push_cast
      ring

theorem soloRuns_state (task : Task) (dt k : Nat) (hdt : max 0 (sleepArg task) ≤ (dt : Int)) :
    ∃ s, exec (init 1) (soloRuns (some task) dt 0 k) = some s ∧ quiescent s ∧
      wellFormed s = k ∧
      elapsedTotal s = (k : Int) * durationMilliseconds (timeSince 0 dt) ∧
      s.g.metrics.TotalRequests = wrapInt64 k ∧
      s.g.metrics.AverageProcessingTime =
        wrapInt64 ((k : Int) * durationMilliseconds (timeSince 0 dt)) := by
  obtain ⟨s, l, h1, h2, h3, h4⟩ := soloRuns_exec task dt hdt k (init 1) (by decide)
  have h1' : exec (init 1) (soloRuns (some task) dt 0 k) = some s := h1
  have hl : s.reqs = l := by rw [h2]; rfl
  obtain ⟨u1, u2⟩ := uniform_totals task _ l h4
  have hq : quiescent s := by
    intro r hr
    rw [hl] at hr
    simp [(h4 r hr).1, PC.finished]
  have hw : wellFormed s = k := by
    unfold wellFormed
    rw [hl, u1, h3]
  have he : elapsedTotal s = (k : Int) * durationMilliseconds (timeSince 0 dt) := by
    unfold elapsedTotal
    rw [hl, u2, h3]
  obtain ⟨c1, c2, _⟩ := counters_quiescent (inv_reachable h1') hq
  refine ⟨s, h1', hq, hw, he, ?_, ?_⟩
  · rw [c1, hw]
  · rw [c2, he]

/-! ## The claims -/

/-- C1 (admission-gate bound): in every state reachable from the initial state
with capacity `C > 0` by any schedule of arrivals, clock ticks and handler steps,
the number of handlers between their acquire and their release is at most `C`,
and so is the number inside the simulated-work section; the former is exactly
the length of the channel, whose capacity stays `C`. -/
theorem gate_never_exceeds_capacity (C : Nat) (_hC : 0 < C) (acts : List Action)
    (s : State) (h : exec (init C) acts = some s) :
    holders s ≤ C ∧ workers s ≤ C ∧ workers s ≤ holders s ∧
      s.g.concurrencyLimiter.len = holders s ∧ s.g.concurrencyLimiter.cap = C := by
  have hi := inv_reachable h
  have h1 := holders_le hi
  have h2 := workers_le_holders s
  have h3 := holders_eq_len hi
  exact ⟨h1, by omega, h2, h3.symm, hi.cap⟩

/-- Witness for C1: capacity 2 and three simultaneous requests; two are inside the
work section and the third cannot pass the gate. -/
theorem gate_never_exceeds_capacity_witness :
    (exec (init 2) gateSchedule = some gateState ∧
      exec gateState [Action.run 2] = none ∧ holders gateState = 2) ∧
    (holders gateState ≤ 2 ∧ workers gateState ≤ 2 ∧
      workers gateState ≤ holders gateState ∧
      gateState.g.concurrencyLimiter.len = holders gateState ∧
      gateState.g.concurrencyLimiter.cap = 2) :=
  ⟨by decide, gate_never_exceeds_capacity 2 (by decide) gateSchedule gateState (by decide)⟩

/-- C2 fails as stated: the two counters are `int64` and lines 49-50 add with
wrap-around.  After 1000001 requests handled one after the other, each measuring
the longest elapsed time `time.Since` can report (9223372036854 ms), the sum of
the elapsed times is 9223381260226036854 while `AverageProcessingTime` has
wrapped to -9223362813483514762; and after 2^63 requests `TotalRequests` has
wrapped to -2^63. -/
theorem completion_totals_overflow_counterexample :
    (∃ s, exec (init 1) (soloRuns (some idleTask) longTick 0 1000001) = some s ∧
      quiescent s ∧ wellFormed s = 1000001 ∧
      elapsedTotal s = 9223381260226036854 ∧
      s.g.metrics.AverageProcessingTime = -9223362813483514762 ∧
      s.g.metrics.AverageProcessingTime ≠ elapsedTotal s) ∧
    (∃ s, exec (init 1) (soloRuns (some idleTask) 0 0 9223372036854775808) = some s ∧
      quiescent s ∧ wellFormed s = 9223372036854775808 ∧
      s.g.metrics.TotalRequests = -9223372036854775808 ∧
      s.g.metrics.TotalRequests ≠ (wellFormed s : Int)) := by
  have hE : durationMilliseconds (timeSince 0 (longTick : Nat)) = 9223372036854 := by
    decide
  constructor
  · obtain ⟨s, h1, h2, h3, h4, _, h6⟩ :=
      soloRuns_state idleTask longTick 1000001 (by decide)
    rw [hE] at h4 h6
    have e : ((1000001 : Nat) : Int) * 9223372036854 = 9223381260226036854 := by
      norm_num
    rw [e] at h4 h6
    have w : wrapInt64 9223381260226036854 = -9223362813483514762 := by
      unfold wrapInt64; norm_num
    rw [w] at h6
    refine ⟨s, h1, h2, h3, h4, h6, ?_⟩
    rw [h4, h6]
    decide
  · obtain ⟨s, h1, h2, h3, _, h5, _⟩ :=
      soloRuns_state idleTask 0 9223372036854775808 (by decide)
    have w : wrapInt64 ((9223372036854775808 : Nat) : Int) = -9223372036854775808 := by
      unfold wrapInt64; norm_num
    rw [w] at h5
    refine ⟨s, h1, h2, h3, h5, ?_⟩
    rw [h5, h3]
    decide

/-- C2 amended (completion totals, within the `int64` range): starting from
zeroed metrics, in every reachable state in which all started handlers have
returned, `TotalRequests` is the number `N` of well-formed requests whenever
`N ≤ 2^63 - 1`, and `AverageProcessingTime` is the sum of the elapsed times their
handlers measured whenever that sum is at most `2^63 - 1`; without the bounds
each equality holds modulo 2^64.  Every handler step leaves the two counters
alone except line 49, which adds 1 to the first, and line 50, which adds the
handler's own elapsed milliseconds to the second, both with `int64` wrap-around. -/
theorem completion_totals (C : Nat) (_hC : 0 < C) (acts : List Action) (s : State)
    (h : exec (init C) acts = some s) (hq : quiescent s) :
    (s.g.metrics.TotalRequests = wrapInt64 (wellFormed s) ∧
      s.g.metrics.AverageProcessingTime = wrapInt64 (elapsedTotal s)) ∧
    ((wellFormed s : Int) ≤ maxInt64 →
      s.g.metrics.TotalRequests = (wellFormed s : Int)) ∧
    (elapsedTotal s ≤ maxInt64 →
      s.g.metrics.AverageProcessingTime = elapsedTotal s) ∧
    (∀ (g g' : Shared) (r r' : Req), stepReq g r = some (g', r') →
      g'.metrics.TotalRequests =
          (if r.pc = PC.addTotal then atomicAddInt64 g.metrics.TotalRequests 1
           else g.metrics.TotalRequests) ∧
        g'.metrics.AverageProcessingTime =
          (if r.pc = PC.addTime then
             atomicAddInt64 g.metrics.AverageProcessingTime r.elapsed
           else g.metrics.AverageProcessingTime)) := by
  have hi := inv_reachable h
  obtain ⟨h1, h2, h3⟩ := counters_quiescent hi hq
  refine ⟨⟨h1, h2⟩, ?_, ?_, fun g g' r r' hs => stepReq_counters hs⟩
  · intro hN
    unfold maxInt64 at hN
    rw [h1]
    exact wrapInt64_of_range _ (by omega) (by omega)
  · intro hE
    unfold maxInt64 at hE
    rw [h2]
    exact wrapInt64_of_range _ (by omega) (by omega)

/-- Witness for the amended C2: the single-request scenario, one task of 50 ms that slept
exactly 50 ms, leaves `TotalRequests = 1` and a cumulative time of 50. -/
theorem completion_totals_witness :
    (exec (init 10) (soloSchedule 0 (some demoTask) 50000000) = some soloState ∧
      quiescent soloState ∧ wellFormed soloState = 1 ∧ elapsedTotal soloState = 50 ∧
      (wellFormed soloState : Int) ≤ maxInt64 ∧ elapsedTotal soloState ≤ maxInt64) ∧
    soloState.g.metrics.TotalRequests = (wellFormed soloState : Int) ∧
    soloState.g.metrics.AverageProcessingTime = elapsedTotal soloState :=
  ⟨by decide,
    (completion_totals 10 (by decide) (soloSchedule 0 (some demoTask) 50000000)
      soloState (by decide) (by decide)).2.1 (by decide),
    (completion_totals 10 (by decide) (soloSchedule 0 (some demoTask) 50000000)
      soloState (by decide) (by decide)).2.2.1 (by decide)⟩

/-- C3 (average): for every metrics state `metricsHandler` returns a report (its
division never meets a zero divisor) whose `average_processing_ms` is the
truncated quotient of the cumulative time by `TotalRequests` when
`TotalRequests > 0` and 0 otherwise, in particular 0 when `TotalRequests = 0`;
the other two fields are the counters as loaded. -/
theorem metrics_average (m : Metrics) :
    metricsHandler m =
        some { total_requests := m.TotalRequests,
               average_processing_ms :=
                 if 0 < m.TotalRequests then
                   Int.tdiv m.AverageProcessingTime m.TotalRequests
                 else 0,
               current_active_requests := m.ActiveRequests } ∧
      (0 < m.TotalRequests →
        int64Div m.AverageProcessingTime m.TotalRequests =
          some (Int.tdiv m.AverageProcessingTime m.TotalRequests)) ∧
      (m.TotalRequests = 0 →
        metricsHandler m =
          some { total_requests := 0, average_processing_ms := 0,
                 current_active_requests := m.ActiveRequests }) := by
  have key : ∀ a b : Int, 0 < b → int64Div a b = some (Int.tdiv a b) := by
    intro a b hb
    have h1 : b ≠ 0 := by omega
    have h2 : ¬ (a = minInt64 ∧ b = -1) := by omega
    simp [int64Div, h1, h2]
  refine ⟨?_, key _ _, ?_⟩
  · by_cases hpos : 0 < m.TotalRequests
    · simp [metricsHandler, metricsReport, hpos, key _ _ hpos]
    · simp [metricsHandler, metricsReport, hpos]
  · intro h0
    simp [metricsHandler, metricsReport, h0]

/-- Witness for C3: three requests totalling 100 ms report an average of 33. -/
theorem metrics_average_witness :
    metricsHandler { TotalRequests := 3, AverageProcessingTime := 100,
                     ActiveRequests := 0 } =
        some { total_requests := 3, average_processing_ms := 33,
               current_active_requests := 0 } ∧
      int64Div 100 3 = some (Int.tdiv 100 3) :=
  ⟨by decide,
    (metrics_average { TotalRequests := 3, AverageProcessingTime := 100,
                       ActiveRequests := 0 }).2.1 (by decide)⟩

/-- C4 (malformed body rejected without side effects): whenever a handler whose
body fails to decode takes its step, in any state, it returns after
`http.Error(w, "Invalid JSON", 400)`, the shared state (gate, the three counters)
and every other handler are exactly as before, and it takes no further step.  In
every reachable state a handler with such a body stands before or after that one
step and has performed no channel operation. -/
theorem malformed_body_rejected (s : State) (i : Nat) (r : Req)
    (hr : s.reqs[i]? = some r) (hpc : r.pc = PC.decode) (hb : r.body = none) :
    step s (Action.run i) =
        some { g := s.g,
               reqs := s.reqs.set i
                 { r with pc := PC.rejected,
                          response := some (Response.error "Invalid JSON" 400) } } ∧
      stepReq s.g { r with pc := PC.rejected,
                           response := some (Response.error "Invalid JSON" 400) } = none ∧
      ∀ (C : Nat) (acts : List Action) (s' : State) (r' : Req),
        exec (init C) acts = some s' → r' ∈ s'.reqs → r'.body = none →
        (r'.pc = PC.decode ∨ r'.pc = PC.rejected) ∧ r'.acquires = 0 ∧
          r'.releases = 0 := by
  refine ⟨?_, ?_, ?_⟩
  · simp [step, hr, stepReq, hpc, hb, invalidJSON, StatusBadRequest]
  · simp [stepReq]
  · intro C acts s' r' h hr' hb'
    have hl := (inv_reachable h).loc r' hr'
    have hp : r'.pc = PC.decode ∨ r'.pc = PC.rejected := by
      by_cases h1 : r'.pc = PC.decode
      · exact Or.inl h1
      · by_cases h2 : r'.pc = PC.rejected
        · exact Or.inr h2
        · have := hl.decoded h1 h2
          rw [hb'] at this
          simp at this
    refine ⟨hp, ?_, ?_⟩
    · rw [hl.acq]; rcases hp with hp | hp <;> simp [hp, acquiresAt]
    · rw [hl.rel]; rcases hp with hp | hp <;> simp [hp, releasesAt]

/-- Witness for C4: a malformed request arriving while the only slot is taken is
rejected at once; gate and counters are untouched. -/
theorem malformed_body_rejected_witness :
    (malformedState.reqs[1]? = some (newReq none) ∧
      malformedState.g.concurrencyLimiter = { cap := 1, len := 1 }) ∧
    step malformedState (Action.run 1) =
        some { g := malformedState.g,
               reqs := malformedState.reqs.set 1
                 { newReq none with
                   pc := PC.rejected,
                   response := some (Response.error "Invalid JSON" 400) } } :=
  ⟨by decide,
    (malformed_body_rejected malformedState 1 (newReq none) (by decide) rfl rfl).1⟩

/-- C5 (capacity defaulting): for every value of the `MAX_CONCURRENT_REQUESTS`
setting (`none` when absent), the capacity `main` stores is `n` when `Atoi`
parses the setting to an integer `n > 0`, and 10 when the setting is absent,
when `Atoi` returns an error, or when it parses to `n ≤ 0`; the capacity is
always a positive Go `int`, and it is the capacity of the empty channel `main`
makes. -/
theorem capacity_defaulting (setting : Option String) :
    (∀ n : Int, Atoi (Getenv setting) = Except.ok n → 0 < n →
        mainCapacity setting = n) ∧
      (setting = none → mainCapacity setting = 10) ∧
      (∀ e : AtoiError, Atoi (Getenv setting) = Except.error e →
        mainCapacity setting = 10) ∧
      (∀ n : Int, Atoi (Getenv setting) = Except.ok n → n ≤ 0 →
        mainCapacity setting = 10) ∧
      0 < mainCapacity setting ∧ mainCapacity setting ≤ maxInt64 ∧
      ((mainState setting).g.concurrencyLimiter.cap : Int) = mainCapacity setting ∧
      (mainState setting).g.concurrencyLimiter.len = 0 := by
  have hpos : 0 < mainCapacity setting := by
    unfold mainCapacity
    split
    · decide
    · split <;> omega
  refine ⟨?_, ?_, ?_, ?_, hpos, ?_, ?_, rfl⟩
  · intro n hn hpos
    have : ¬ n ≤ 0 := by omega
    simp [mainCapacity, hn, this]
  · intro hs
    subst hs
    decide
  · intro e he
    simp [mainCapacity, he]
  · intro n hn hle
    simp [mainCapacity, hn, hle]
  · unfold mainCapacity
    split
    · decide
    · rename_i n hn
      have := (Atoi_range _ _ hn).2
      split
      · decide
      · exact this
  · simp only [mainState, init, Chan.make]
    omega

/-- Witness for C5: a positive setting is taken, a negative, a non-numeric and an
absent one give 10. -/
theorem capacity_defaulting_witness :
    (mainCapacity (some "25") = 25 ∧ mainCapacity (some "-3") = 10 ∧
      mainCapacity (some "0") = 10 ∧ mainCapacity (some "abc") = 10 ∧
      mainCapacity (some "") = 10) ∧
    mainCapacity (some "25") = 25 ∧ mainCapacity none = 10 :=
  ⟨by decide, (capacity_defaulting (some "25")).1 25 rfl (by decide),
    (capacity_defaulting none).2.1 rfl⟩

/-- C6 (no leaked or doubled slots): in every reachable state every handler has
performed at most one acquire and no more releases than acquires, and the gate
occupancy is the sum over the handlers of acquires minus releases.  A handler
that has returned, by either exit path, has performed as many releases as
acquires: one of each for a well-formed body, none for a malformed one.  The
gate is then exactly as in the run of the same schedule in which that request
never arrived (its arrival and its steps left out), which exists and in which
every other handler stands where it stands here. -/
theorem slots_paired (C : Nat) (_hC : 0 < C) (acts : List Action) (s : State)
    (h : exec (init C) acts = some s) (i : Nat) (r : Req) (hr : s.reqs[i]? = some r) :
    r.releases ≤ r.acquires ∧ r.acquires ≤ 1 ∧
      (s.g.concurrencyLimiter.len : Int) =
        (s.reqs.map (fun x => (x.acquires : Int) - (x.releases : Int))).sum ∧
      (r.pc.finished = true →
        r.acquires = r.releases ∧ r.acquires = (if r.body.isSome then 1 else 0) ∧
          ∃ s', exec (init C) (eraseReq i 0 acts) = some s' ∧
            s'.reqs = s.reqs.eraseIdx i ∧
            s'.g.concurrencyLimiter = s.g.concurrencyLimiter) := by
  have hi := inv_reachable h
  have hl := hi.loc r (List.getElem?_mem hr)
  have hbal := holding_eq_balance hl
  refine ⟨?_, ?_, ?_, ?_⟩
  · cases hp : r.pc.holding <;> simp [hp, ind] at hbal <;> omega
  · rw [hl.acq]; cases r.pc <;> simp [acquiresAt]
  · rw [hi.len]
    exact total_congr _ _ _ (fun x hx => holding_eq_balance (hi.loc x hx))
  · intro hf
    obtain ⟨h1, h2, h3⟩ := finished_balance hl hf
    refine ⟨h1, h2, ?_⟩
    obtain ⟨s', e1, e2, _, e4, e5⟩ := erased_run h hr
    refine ⟨s', e1, e2, ?_⟩
    have h7 : ind r.pc.holding = 0 := by simp [h3, ind]
    rw [h7] at e5
    cases hc : s'.g.concurrencyLimiter with
    | mk c l =>
      cases hd : s.g.concurrencyLimiter with
      | mk c₂ l₂ =>
        simp only [hc, hd] at e4 e5
        simp only [Chan.mk.injEq]
        omega

/-- Witness for C6: after the single-request scenario the handler has one acquire
and one release, and the gate is empty, as in the run without the request. -/
theorem slots_paired_witness :
    (exec (init 10) (soloSchedule 0 (some demoTask) 50000000) = some soloState ∧
      soloState.reqs[0]? = some soloReq ∧ soloReq.pc = PC.done ∧
      soloReq.acquires = 1 ∧ soloReq.releases = 1 ∧
      soloState.g.concurrencyLimiter = { cap := 10, len := 0 } ∧
      eraseReq 0 0 (soloSchedule 0 (some demoTask) 50000000) =
        [Action.tick 50000000]) ∧
    (soloReq.releases ≤ soloReq.acquires ∧ soloReq.acquires ≤ 1 ∧
      (soloState.g.concurrencyLimiter.len : Int) =
        (soloState.reqs.map (fun x => (x.acquires : Int) - (x.releases : Int))).sum ∧
      (soloReq.pc.finished = true →
        soloReq.acquires = soloReq.releases ∧
          soloReq.acquires = (if soloReq.body.isSome then 1 else 0) ∧
          ∃ s', exec (init 10)
              (eraseReq 0 0 (soloSchedule 0 (some demoTask) 50000000)) = some s' ∧
            s'.reqs = soloState.reqs.eraseIdx 0 ∧
            s'.g.concurrencyLimiter = soloState.g.concurrencyLimiter)) :=
  ⟨by decide,
    slots_paired 10 (by decide) (soloSchedule 0 (some demoTask) 50000000) soloState
      (by decide) 0 soloReq (by decide)⟩

/-- C7 (active count non-negative, drains to zero): in every state reachable from
the initial state with a capacity `C > 0` that is a Go `int`, `ActiveRequests` is
at least 0, and it is 0 whenever every started handler has returned. -/
theorem active_nonneg_and_drains (C : Nat) (_hC : 0 < C) (hC64 : (C : Int) ≤ maxInt64)
    (acts : List Action) (s : State) (h : exec (init C) acts = some s) :
    0 ≤ s.g.metrics.ActiveRequests ∧
      (quiescent s → s.g.metrics.ActiveRequests = 0) := by
  have hi := inv_reachable h
  have h1 := active_eq_actives hi hC64
  refine ⟨by omega, ?_⟩
  intro hq
  have h2 := actives_quiescent s hq
  omega

/-- Witness for C7: after the single-request scenario every handler has returned
and `ActiveRequests` is 0. -/
theorem active_nonneg_and_drains_witness :
    (exec (init 10) (soloSchedule 0 (some demoTask) 50000000) = some soloState ∧
      quiescent soloState) ∧
    (0 ≤ soloState.g.metrics.ActiveRequests ∧
      (quiescent soloState → soloState.g.metrics.ActiveRequests = 0)) :=
  ⟨by decide,
    active_nonneg_and_drains 10 (by decide) (by decide)
      (soloSchedule 0 (some demoTask) 50000000) soloState (by decide)⟩

/-- C8 fails as stated: with capacity 1, a handler that has performed the send of
line 41 but not yet the increment of line 42 holds the only slot while
`ActiveRequests` is still 0. -/
theorem active_lags_occupancy_counterexample :
    exec (init 1) transitSchedule = some transitState ∧
      transitState.g.concurrencyLimiter.len = 1 ∧ holders transitState = 1 ∧
      transitState.g.metrics.ActiveRequests = 0 ∧
      transitState.g.metrics.ActiveRequests ≠
        (transitState.g.concurrencyLimiter.len : Int) := by
  decide

/-- C8 amended (active count tracks marked handlers): in every state reachable
from the initial state with a capacity `C > 0` that is a Go `int`,
`ActiveRequests` equals the number of handlers between their increment (line 42)
and their decrement (line 51); the gate occupancy is that number plus the number
of handlers stopped between acquire and increment or between decrement and
release.  So `ActiveRequests` never exceeds the occupancy and equals it whenever
no handler is stopped at one of those two points. -/
theorem active_tracks_marked (C : Nat) (_hC : 0 < C) (hC64 : (C : Int) ≤ maxInt64)
    (acts : List Action) (s : State) (h : exec (init C) acts = some s) :
    s.g.metrics.ActiveRequests = (actives s : Int) ∧
      s.g.concurrencyLimiter.len = actives s + inTransit s ∧
      s.g.metrics.ActiveRequests ≤ (s.g.concurrencyLimiter.len : Int) ∧
      (inTransit s = 0 →
        s.g.metrics.ActiveRequests = (s.g.concurrencyLimiter.len : Int)) := by
  have hi := inv_reachable h
  have h1 := active_eq_actives hi hC64
  have h2 := holders_split s
  have h3 := holders_eq_len hi
  refine ⟨h1, by omega, by omega, ?_⟩
  intro h0
  omega

/-- Witness for the amended C8: with two handlers asleep and a third before the
gate, `ActiveRequests` and the occupancy are both 2. -/
theorem active_tracks_marked_witness :
    (exec (init 2) gateSchedule = some gateState ∧ inTransit gateState = 0 ∧
      gateState.g.metrics.ActiveRequests = 2) ∧
    (gateState.g.metrics.ActiveRequests = (actives gateState : Int) ∧
      gateState.g.concurrencyLimiter.len = actives gateState + inTransit gateState ∧
      gateState.g.metrics.ActiveRequests ≤ (gateState.g.concurrencyLimiter.len : Int) ∧
      (inTransit gateState = 0 →
        gateState.g.metrics.ActiveRequests =
          (gateState.g.concurrencyLimiter.len : Int))) :=
  ⟨by decide,
    active_tracks_marked 2 (by decide) (by decide) gateSchedule gateState (by decide)⟩

/-- C9 (success response): for every well-formed task, in every reachable state a
handler of that task that has returned has written the JSON object whose single
field `message` is `"Task " ++ id ++ " is being processed."`, whatever the
duration and the counters; and from any state with a free slot the handler, run
to its end with the clock advancing by at least the requested wait, does return
with that response. -/
theorem success_response (task : Task) :
    (∀ (C : Nat) (acts : List Action) (s : State) (r : Req),
        exec (init C) acts = some s → r ∈ s.reqs → r.body = some task →
        r.pc = PC.done →
        r.response =
          some (Response.json "application/json"
            [("message", "Task " ++ task.TaskID ++ " is being processed.")])) ∧
      (∀ (s : State) (dt : Nat),
        s.g.concurrencyLimiter.len < s.g.concurrencyLimiter.cap →
        max 0 (sleepArg task) ≤ (dt : Int) →
        ∃ s' r', exec s (soloSchedule s.reqs.length (some task) dt) = some s' ∧
          s'.reqs[s.reqs.length]? = some r' ∧ r'.pc = PC.done ∧
          r'.response =
            some (Response.json "application/json"
              [("message", "Task " ++ task.TaskID ++ " is being processed.")])) := by
  refine ⟨?_, ?_⟩
  · intro C acts s r h hr hb hpc
    have hl := (inv_reachable h).loc r hr
    have hd := hl.decoded (by simp [hpc]) (by simp [hpc])
    rw [hb] at hd
    have ht : r.task = task := (Option.some.inj hd).symm
    rw [hl.resp, responseAt, hpc, ht]
    rfl
  · intro s dt hfree hdt
    obtain ⟨g', r', h1, h2, h3, _, _⟩ := solo_run s task dt hfree hdt
    exact ⟨_, r', h1, by simp, h2, h3⟩

/-- Witness for C9: the task `t1` of the single-request scenario is answered with
`{"message": "Task t1 is being processed."}`. -/
theorem success_response_witness :
    (exec (init 10) (soloSchedule 0 (some demoTask) 50000000) = some soloState ∧
      soloReq ∈ soloState.reqs ∧ soloReq.body = some demoTask ∧
      soloReq.pc = PC.done) ∧
    soloReq.response =
      some (Response.json "application/json"
        [("message", "Task t1 is being processed.")]) :=
  ⟨by decide,
    (success_response demoTask).1 10 (soloSchedule 0 (some demoTask) 50000000)
      soloState soloReq (by decide) (by decide) (by decide) (by decide)⟩

/-- C10 fails as stated: for the duration 9223372036855 ms the `int64` product
with `time.Millisecond` wraps to a negative number of nanoseconds, so `time.Sleep`
returns at once and the handler can finish with an elapsed time of 0 ms. -/
theorem sleep_product_wraps_counterexample :
    0 ≤ hugeTask.Duration ∧ hugeTask.Duration ≤ maxInt64 ∧
      sleepArg hugeTask = -9223372036854551616 ∧
      sleepArg hugeTask ≠ hugeTask.Duration * 1000000 ∧
      (exec (init 1) (soloSchedule 0 (some hugeTask) 0)).map
          (fun s => s.reqs.map (fun r => (r.pc, r.elapsed))) =
        some [(PC.done, 0)] := by
  decide

/-- C10 amended (requested wait equals the duration, within range): for every task
with duration `0 ≤ d ≤ 9223372036854` the argument of `time.Sleep` is exactly
`d * 1000000` nanoseconds, and in every reachable state every handler of such a
task that has measured its elapsed time has measured at least `d` milliseconds. -/
theorem sleep_exact_in_range (task : Task) (h0 : 0 ≤ task.Duration)
    (h1 : task.Duration ≤ 9223372036854) :
    sleepArg task = task.Duration * 1000000 ∧
      ∀ (C : Nat) (acts : List Action) (s : State) (r : Req),
        exec (init C) acts = some s → r ∈ s.reqs → r.body = some task →
        r.pc.measured = true → task.Duration ≤ r.elapsed := by
  have hs : sleepArg task = task.Duration * 1000000 := by
    unfold sleepArg Millisecond
    exact wrapInt64_of_range _ (by omega) (by omega)
  refine ⟨hs, ?_⟩
  intro C acts s r h hr hb hm
  have hl := (inv_reachable h).loc r hr
  have ht : r.task = task := by
    have hd := hl.decoded (by intro hp; simp [hp, PC.measured] at hm)
      (by intro hp; simp [hp, PC.measured] at hm)
    rw [hb] at hd
    exact (Option.some.inj hd).symm
  have hw := hl.waited hm
  rw [ht, hs] at hw
  unfold durationMilliseconds at hw
  rw [Int.tdiv_eq_ediv (le_max_left _ _) (by omega)] at hw
  omega

/-- Witness for the amended C10: the 50 ms task of the single-request scenario
asks for 50000000 ns and records 50 ms. -/
theorem sleep_exact_in_range_witness :
    (exec (init 10) (soloSchedule 0 (some demoTask) 50000000) = some soloState ∧
      soloState.reqs.map (fun r => (r.pc, r.elapsed)) = [(PC.done, 50)]) ∧
    sleepArg demoTask = demoTask.Duration * 1000000 :=
  ⟨by decide, (sleep_exact_in_range demoTask (by decide) (by decide)).1⟩

end ConcurrencyApi
